import Mathlib

/-!
Verification of the Gray-Scott reaction-diffusion server
(`thrml-server/simulation.py`, `thrml-server/dual_server.py`,
`thrml-server/server.py`).

Conventions of the embedding:
* Machine `float32` arithmetic is modelled by exact rational arithmetic (`ℚ`);
  `np.clip(x, 0, 1)` becomes `clip01`.
* A 2-D array is modelled as a total function `ℕ → ℕ → ℚ`; the cells of a
  `rows × cols` grid are those with `r < rows`, `c < cols`.  `np.roll`
  indexing is translated to explicit modular index arithmetic.
* The pseudo-random draws of the program (the seeded `np.random.RandomState`
  used by `create_initial_chemicals`, and the per-step Gaussian draws made by
  `GrayScottSampler.sample` from `jax.random.key(len(history))`) are passed in
  as explicit oracle arguments; the program's determinism for a fixed seed
  corresponds to instantiating the oracles identically.
* A Python exception is modelled as `Option.none`.
-/

/-- A dense 2-D array of concentrations, as a total function on indices. -/
abbrev Grid : Type := ℕ → ℕ → ℚ

/-- `np.clip(x, 0, 1)` from `simulation.py` line 227 / `dual_server.py` lines 104-105. -/
def clip01 (x : ℚ) : ℚ := max 0 (min 1 x)

/-- The simulation parameters held in `SimulationSession.params`
(`simulation.py` lines 364-371) and `dual_server.py`'s module-level `params`
dict (which has no `noise_level` entry; `step_native` never reads one). -/
structure Params where
  Du : ℚ
  Dv : ℚ
  F : ℚ
  k : ℚ
  dt : ℚ
  noise_level : ℚ

/-- The defaults set in `SimulationSession.__init__`:
`Du=0.16, Dv=0.08, F=0.055, k=0.062, dt=1.0, noise_level=0.001`.
The first five coincide with `dual_server.py`'s `params` dict. -/
def defaultParams : Params :=
  { Du := 4/25, Dv := 2/25, F := 11/200, k := 31/500, dt := 1, noise_level := 1/1000 }

/-- `laplacian_native` (`dual_server.py` lines 77-85): the sum of the four
`np.roll`s of the array minus `4 * arr`.  `np.roll(arr, 1, axis=0)[r][c]`
is `arr[(r-1) mod rows][c]`, written here as `(r + rows - 1) % rows`
(equal to `(r-1) mod rows` for every in-range `r < rows`); likewise for the
other three shifts. -/
def laplacian_native (rows cols : ℕ) (g : Grid) : Grid := fun r c =>
  g ((r + rows - 1) % rows) c + g ((r + 1) % rows) c
    + g r ((c + cols - 1) % cols) + g r ((c + 1) % cols) - 4 * g r c

/-- Modelled from the spec (§4.1): the periodic 4-neighbor stencil
`grid[r-1][c] + grid[r+1][c] + grid[r][c-1] + grid[r][c+1] − 4*grid[r][c]`
with all neighbor indices taken modulo `rows`/`cols`.  For in-range `r`,
`(r-1) mod rows` is written `(r + rows - 1) % rows`. -/
def stencilSpec (rows cols : ℕ) (g : Grid) : Grid := fun r c =>
  g ((r + rows - 1) % rows) c + g ((r + 1) % rows) c
    + g r ((c + cols - 1) % cols) + g r ((c + 1) % cols) - 4 * g r c

/-- The neighbor average computed by `GrayScottSampler.sample`
(`simulation.py` lines 182-211): `neighbor_sum / neighbor_count` where the
diffusion interactions built by `DiffusionFactor` over the periodic grid
graph supply each cell's 4 neighbors (distinct whenever `rows, cols ≥ 3`),
so `neighbor_count = 4`. -/
def samplerNeighborAvg (rows cols : ℕ) (g : Grid) : Grid := fun r c =>
  (g ((r + rows - 1) % rows) c + g ((r + 1) % rows) c
    + g r ((c + cols - 1) % cols) + g r ((c + 1) % cols)) / 4

/-- The quantity named `laplacian` in `GrayScottSampler.sample`
(`simulation.py` line 212): `avg_neighbor - current_val`. -/
def samplerLaplacian (rows cols : ℕ) (g : Grid) : Grid := fun r c =>
  samplerNeighborAvg rows cols g r c - g r c

/-- `step_native` (`dual_server.py` lines 88-105): one explicit-Euler
Gray-Scott step with the exact stencil Laplacian, both species updated from
the old values, no noise, both results clipped to `[0,1]`. -/
def step_native (rows cols : ℕ) (p : Params) (U V : Grid) : Grid × Grid :=
  (fun r c => clip01 (U r c + p.dt *
      (p.Du * laplacian_native rows cols U r c
        - U r c * V r c * V r c + p.F * (1 - U r c))),
   fun r c => clip01 (V r c + p.dt *
      (p.Dv * laplacian_native rows cols V r c
        + U r c * V r c * V r c - (p.F + p.k) * V r c)))

/-- One THRML sampling sweep (`sample_states` with `steps_per_sample=1` over
the free blocks `[block_u, block_v]`): the `GrayScottSampler.sample` update
(`simulation.py` lines 207-229) applied first to the U block and then, block
Gibbs being sequential, to the V block with the freshly updated U as
`other_chemical`.  `nU`/`nV` are the per-cell Gaussian draws of
`jax.random.normal`, scaled by `noise_level` and added before the clip. -/
def thrmlStep (rows cols : ℕ) (p : Params) (f : Grid × Grid) (nU nV : Grid) :
    Grid × Grid :=
  let U := f.1
  let V := f.2
  let U1 : Grid := fun r c =>
    clip01 (U r c + p.dt *
        (p.Du * samplerLaplacian rows cols U r c
          - U r c * V r c * V r c + p.F * (1 - U r c))
      + nU r c * p.noise_level)
  let V1 : Grid := fun r c =>
    clip01 (V r c + p.dt *
        (p.Dv * samplerLaplacian rows cols V r c
          + U1 r c * V r c * V r c - (p.F + p.k) * V r c)
      + nV r c * p.noise_level)
  (U1, V1)

/-- The all-ones grid (activator of the uniform state `A=1, B=0`). -/
def onesGrid : Grid := fun _ _ => 1

/-- The all-zeros grid (inhibitor of the uniform state `A=1, B=0`). -/
def zerosGrid : Grid := fun _ _ => 0

/-- A concrete 3×3 test grid: 1 at cell (0,0), 0 elsewhere. -/
def pulseGrid : Grid := fun r c => if r = 0 ∧ c = 0 then 1 else 0

theorem clip01_nonneg (x : ℚ) : 0 ≤ clip01 x := le_max_left 0 _

theorem clip01_le_one (x : ℚ) : clip01 x ≤ 1 :=
  max_le zero_le_one (min_le_left 1 x)

theorem samplerLaplacian_eq_quarter (rows cols : ℕ) (g : Grid) (r c : ℕ) :
    samplerLaplacian rows cols g r c = stencilSpec rows cols g r c / 4 := by
  simp only [samplerLaplacian, samplerNeighborAvg, stencilSpec]
  ring

/-- C1 (amended): on grids where every cell has four distinct periodic
neighbors (`rows, cols ≥ 3`), the native path's Laplacian equals the
spec's periodic 4-neighbor stencil at every cell, while the THRML sampler
path computes the neighbor average minus the center, i.e. exactly one
quarter of that stencil. -/
theorem c1_laplacian_amended (rows cols : ℕ) (g : Grid) (r c : ℕ)
    (_hr3 : 3 ≤ rows) (_hc3 : 3 ≤ cols) (_hr : r < rows) (_hc : c < cols) :
    laplacian_native rows cols g r c = stencilSpec rows cols g r c ∧
      samplerLaplacian rows cols g r c = stencilSpec rows cols g r c / 4 :=
  ⟨rfl, samplerLaplacian_eq_quarter rows cols g r c⟩

/-- C1 witness: the amended statement instantiated on the 3×3 pulse grid at
cell (0,1). -/
theorem c1_laplacian_amended_witness :
    laplacian_native 3 3 pulseGrid 0 1 = stencilSpec 3 3 pulseGrid 0 1 ∧
      samplerLaplacian 3 3 pulseGrid 0 1 = stencilSpec 3 3 pulseGrid 0 1 / 4 :=
  c1_laplacian_amended 3 3 pulseGrid 0 1 (by decide) (by decide)
    (by decide) (by decide)

/-- C1 counterexample: the claim as stated is false for the sampler path:
on the 3×3 pulse grid, at cell (0,1) the sampler's Laplacian is 1/4 while
the periodic 4-neighbor stencil is 1. -/
theorem c1_laplacian_counterexample :
    samplerLaplacian 3 3 pulseGrid 0 1 ≠ stencilSpec 3 3 pulseGrid 0 1 := by
  norm_num [samplerLaplacian, samplerNeighborAvg, stencilSpec, pulseGrid]

/-- Parameters identical to the session defaults except that the noise
amplitude is zero. -/
def paramsNoNoise : Params := { defaultParams with noise_level := 0 }

theorem step_native_uniform (rows cols : ℕ) (p : Params) :
    step_native rows cols p onesGrid zerosGrid = (onesGrid, zerosGrid) := by
  refine Prod.ext ?_ ?_ <;> funext r c <;>
    simp [step_native, laplacian_native, onesGrid, zerosGrid] <;>
    norm_num [clip01]

theorem thrmlStep_uniform (rows cols : ℕ) (p : Params) (nU nV : Grid)
    (hnl : p.noise_level = 0) :
    thrmlStep rows cols p (onesGrid, zerosGrid) nU nV = (onesGrid, zerosGrid) := by
  refine Prod.ext ?_ ?_ <;> funext r c <;>
    simp [thrmlStep, samplerLaplacian, samplerNeighborAvg, onesGrid, zerosGrid, hnl] <;>
    norm_num [clip01]

/-- C9 (amended): the uniform field (activator 1, inhibitor 0) is a fixed
point of the native step for every parameter choice (including the
defaults), and of the THRML sampler step whenever the noise contribution is
zero; with the default nonzero `noise_level` the sampler step perturbs the
uniform field (see the counterexample). -/
theorem c9_fixed_point_amended :
    (∀ (rows cols : ℕ) (p : Params),
        step_native rows cols p onesGrid zerosGrid = (onesGrid, zerosGrid)) ∧
      (∀ (rows cols : ℕ) (p : Params) (nU nV : Grid), p.noise_level = 0 →
        thrmlStep rows cols p (onesGrid, zerosGrid) nU nV = (onesGrid, zerosGrid)) :=
  ⟨step_native_uniform, thrmlStep_uniform⟩

/-- C9 witness: the amended statement at a 3×3 grid, with default parameters
on the native path and zeroed noise amplitude (but nonzero Gaussian draws)
on the sampler path. -/
theorem c9_fixed_point_amended_witness :
    step_native 3 3 defaultParams onesGrid zerosGrid = (onesGrid, zerosGrid) ∧
      thrmlStep 3 3 paramsNoNoise (onesGrid, zerosGrid) onesGrid onesGrid
        = (onesGrid, zerosGrid) :=
  ⟨c9_fixed_point_amended.1 3 3 defaultParams,
   c9_fixed_point_amended.2 3 3 paramsNoNoise onesGrid onesGrid rfl⟩

/-- C9 counterexample: with the default parameters (`noise_level = 1/1000`)
the sampler path is not a fixed point on the uniform field: a Gaussian draw
of −1 at every cell moves the activator from 1 to 999/1000. -/
theorem c9_fixed_point_counterexample :
    thrmlStep 3 3 defaultParams (onesGrid, zerosGrid) (fun _ _ => -1) zerosGrid
      ≠ (onesGrid, zerosGrid) := by
  intro h
  have h0 := congrFun (congrFun (congrArg Prod.fst h) 0) 0
  norm_num [thrmlStep, samplerLaplacian, samplerNeighborAvg, onesGrid, zerosGrid,
    defaultParams, clip01] at h0

/-- Index clamping of a numpy basic slice endpoint on an axis of length
`len`: a negative endpoint counts from the end, and both endpoints are
clamped into `[0, len]`. -/
def npSliceIdx (len : ℕ) (x : ℤ) : ℕ :=
  if x < 0 then ((len : ℤ) + x).toNat else min x.toNat len

/-- Whether index `i` lies in the numpy slice `[a:b]` of an axis of length
`len`. -/
def inSlice (len : ℕ) (a b : ℤ) (i : ℕ) : Bool :=
  decide (npSliceIdx len a ≤ i) && decide (i < npSliceIdx len b)

/-- The cells painted by the `center_square` branch of
`create_initial_chemicals` (`simulation.py` lines 322-326):
`U[r-5:r+5, c-5:c+5]` with `r = rows // 2`, `c = cols // 2`. -/
def centerMask (rows cols r c : ℕ) : Bool :=
  inSlice rows ((rows / 2 : ℕ) - 5) ((rows / 2 : ℕ) + 5) r &&
    inSlice cols ((cols / 2 : ℕ) - 5) ((cols / 2 : ℕ) + 5) c

/-- The cells painted by the `random` branch of `create_initial_chemicals`
(`simulation.py` lines 328-335): `(rows*cols) // 20` squares whose centers
and sizes come from the seeded `RandomState`, here supplied by the draw
oracle `pert` (giving `(r, c, size)` for each perturbation). -/
def randomMask (rows cols : ℕ) (pert : ℕ → ℕ × ℕ × ℕ) (r c : ℕ) : Bool :=
  (List.range ((rows * cols) / 20)).any fun j =>
    inSlice rows ((pert j).1 - ((pert j).2.2 : ℤ)) ((pert j).1 + (pert j).2.2) r &&
      inSlice cols ((pert j).2.1 - ((pert j).2.2 : ℤ)) ((pert j).2.1 + (pert j).2.2) c

/-- The cells painted by the `stripes` branch of `create_initial_chemicals`
(`simulation.py` lines 337-340): `U[:, c:c+3] = 0` for `c` in
`range(0, cols, 20)`, i.e. every column whose index is 0, 1 or 2 modulo
20. -/
def stripesMask (c : ℕ) : Bool := decide (c % 20 < 3)

/-- The set of cells whose `(U, V)` values the selected pattern branch of
`create_initial_chemicals` overwrites with `(0, 1)`.  The branches are
tested in the source's order; a pattern name matching none of them paints
nothing. -/
def patternMask (rows cols : ℕ) (pattern : String) (pert : ℕ → ℕ × ℕ × ℕ)
    (r c : ℕ) : Bool :=
  if pattern = "center_square" then centerMask rows cols r c
  else if pattern = "random" then randomMask rows cols pert r c
  else if pattern = "stripes" then stripesMask c
  else false

/-- `create_initial_chemicals` (`simulation.py` lines 315-348): start from
`U = 1`, `V = 0`, overwrite the pattern's cells with `U = 0, V = 1`, add the
seeded `uniform(-0.01, 0.01)` noise (supplied as oracles `noiseU`,
`noiseV`), and clip both grids to `[0,1]`.  (The source returns the grids
flattened row-major; the model keeps them 2-D.) -/
def create_initial_chemicals (rows cols : ℕ) (pattern : String)
    (pert : ℕ → ℕ × ℕ × ℕ) (noiseU noiseV : Grid) : Grid × Grid :=
  (fun r c =>
      clip01 ((if patternMask rows cols pattern pert r c then 0 else 1) + noiseU r c),
   fun r c =>
      clip01 ((if patternMask rows cols pattern pert r c then 1 else 0) + noiseV r c))

/-- The result of `create_initial_chemicals` when no pattern branch fires:
the uniform base state plus noise, clipped. -/
def baseInit (_rows _cols : ℕ) (noiseU noiseV : Grid) : Grid × Grid :=
  (fun r c => clip01 (1 + noiseU r c), fun r c => clip01 (0 + noiseV r c))

/-- `SimulationSession` (`simulation.py` lines 352-386): grid dimensions,
the `params` dict, the parameters baked into the compiled sampling program
(`self.program`, recreated from `self.params` by `__init__` and
`update_params`), the current field, and the two history lists. -/
structure Session where
  rows : ℕ
  cols : ℕ
  params : Params
  progParams : Params
  current : Grid × Grid
  history_u : List Grid
  history_v : List Grid

/-- `SimulationSession.__init__` (`simulation.py` lines 355-386): default
parameters, program compiled from them, initial field from the `stripes`
pattern, history holding exactly the initial state. -/
def initSession (rows cols : ℕ) (pert : ℕ → ℕ × ℕ × ℕ) (nU nV : Grid) :
    Session :=
  let ci := create_initial_chemicals rows cols "stripes" pert nU nV
  { rows := rows, cols := cols, params := defaultParams,
    progParams := defaultParams, current := ci,
    history_u := [ci.1], history_v := [ci.2] }

/-- `SimulationSession.reset` (`simulation.py` lines 396-402): regenerate
the initial field for the requested pattern at the existing dimensions and
replace the history with that single entry; `params` and the compiled
program are not touched. -/
def reset (s : Session) (pattern : String) (pert : ℕ → ℕ × ℕ × ℕ)
    (nU nV : Grid) : Session :=
  let ci := create_initial_chemicals s.rows s.cols pattern pert nU nV
  { s with current := ci, history_u := [ci.1], history_v := [ci.2] }

/-- The parameter-update operation as exposed over HTTP (`server.py` lines
109-130 composed with `SimulationSession.update_params`, lines 388-394):
the request body is a key/value map; only the keys `F`, `k`, `Du`, `Dv` are
extracted, merged into `params`, and the program is recompiled from the
merged parameters. -/
def update_params (data : List (String × ℚ)) (s : Session) : Session :=
  let p := s.params
  let p1 : Params :=
    { p with
        F := (data.lookup "F").getD p.F,
        k := (data.lookup "k").getD p.k,
        Du := (data.lookup "Du").getD p.Du,
        Dv := (data.lookup "Dv").getD p.Dv }
  { s with params := p1, progParams := p1 }

/-- Whether cell `(r, c)` is inside the wrapped disk painted by
`SimulationSession.interact` (`simulation.py` lines 469-475): some offset
`(dx, dy)` with `dx² + dy² ≤ brush_size²` reaches the cell after taking
`(x+dx) mod cols` and `(y+dy) mod rows`. -/
def paintHit (rows cols : ℕ) (x y bs : ℤ) (r c : ℕ) : Bool :=
  (List.range (2 * bs.toNat + 1)).any fun j =>
    (List.range (2 * bs.toNat + 1)).any fun i =>
      let dy : ℤ := (j : ℤ) - bs
      let dx : ℤ := (i : ℤ) - bs
      decide (dx * dx + dy * dy ≤ bs * bs) &&
        decide ((x + dx) % (cols : ℤ) = (c : ℤ)) &&
        decide ((y + dy) % (rows : ℤ) = (r : ℤ))

/-- `SimulationSession.interact` (`simulation.py` lines 462-483): paint the
disk onto the current field (`U = 0`, `V = 1` inside, all other cells kept)
and append the painted field as one new history entry. -/
def interact (s : Session) (x y bs : ℤ) : Session :=
  let u1 : Grid := fun r c =>
    if paintHit s.rows s.cols x y bs r c then 0 else s.current.1 r c
  let v1 : Grid := fun r c =>
    if paintHit s.rows s.cols x y bs r c then 1 else s.current.2 r c
  { s with current := (u1, v1),
           history_u := s.history_u ++ [u1],
           history_v := s.history_v ++ [v1] }

/-- A trivial perturbation-draw oracle, used for concrete instances. -/
def pertZero : ℕ → ℕ × ℕ × ℕ := fun _ => (0, 0, 0)

/-- A concrete 1×1 session, used for concrete instances. -/
def sessW : Session := initSession 1 1 pertZero zerosGrid zerosGrid

theorem create_unknown_eq_base (rows cols : ℕ) (pat : String)
    (pert : ℕ → ℕ × ℕ × ℕ) (nU nV : Grid)
    (h1 : pat ≠ "center_square") (h2 : pat ≠ "random") (h3 : pat ≠ "stripes") :
    create_initial_chemicals rows cols pat pert nU nV = baseInit rows cols nU nV := by
  refine Prod.ext ?_ ?_ <;> funext r c <;>
    simp [create_initial_chemicals, baseInit, patternMask, h1, h2, h3]

theorem create_unknown_ne_stripes (rows cols : ℕ) (pat : String)
    (pert : ℕ → ℕ × ℕ × ℕ) (nU nV : Grid)
    (h1 : pat ≠ "center_square") (h2 : pat ≠ "random") (h3 : pat ≠ "stripes")
    (hU : ∀ r c, |nU r c| ≤ 1/100) :
    create_initial_chemicals rows cols pat pert nU nV
      ≠ create_initial_chemicals rows cols "stripes" pert nU nV := by
  intro h
  have h0 := congrFun (congrFun (congrArg Prod.fst h) 0) 0
  simp [create_initial_chemicals, patternMask, stripesMask, h1, h2, h3] at h0
  have hb := abs_le.mp (hU 0 0)
  have hL : (99 : ℚ)/100 ≤ clip01 (1 + nU 0 0) := by
    refine le_trans (le_min (by norm_num) (by linarith [hb.1])) (le_max_right _ _)
  have hR : clip01 (nU 0 0) ≤ 1/100 := by
    refine max_le (by norm_num) (le_trans (min_le_right _ _) (by linarith [hb.2]))
  rw [h0] at hL
  linarith

/-- C6 (amended): a pattern name matching none of the recognized generators
makes `create_initial_chemicals` (hence `reset`) fall back to the uniform
base state `U = 1, V = 0` (plus seeded noise, clipped) — it does not fail,
but it does not reproduce the `stripes` field either: since the noise
amplitude is at most 0.01, the two fields always differ at cell (0,0). -/
theorem c6_unknown_pattern_amended (rows cols : ℕ) (pat : String)
    (pert : ℕ → ℕ × ℕ × ℕ) (nU nV : Grid)
    (h1 : pat ≠ "center_square") (h2 : pat ≠ "random") (h3 : pat ≠ "stripes") :
    create_initial_chemicals rows cols pat pert nU nV = baseInit rows cols nU nV ∧
      ((∀ r c, |nU r c| ≤ 1/100) →
        create_initial_chemicals rows cols pat pert nU nV
          ≠ create_initial_chemicals rows cols "stripes" pert nU nV) :=
  ⟨create_unknown_eq_base rows cols pat pert nU nV h1 h2 h3,
   fun hU => create_unknown_ne_stripes rows cols pat pert nU nV h1 h2 h3 hU⟩

/-- C6 witness: the amended statement at the unrecognized pattern name
`"bogus"` on a 1×1 grid with zero noise draws. -/
theorem c6_unknown_pattern_amended_witness :
    create_initial_chemicals 1 1 "bogus" pertZero zerosGrid zerosGrid
        = baseInit 1 1 zerosGrid zerosGrid ∧
      create_initial_chemicals 1 1 "bogus" pertZero zerosGrid zerosGrid
        ≠ create_initial_chemicals 1 1 "stripes" pertZero zerosGrid zerosGrid := by
  have h := c6_unknown_pattern_amended 1 1 "bogus" pertZero zerosGrid zerosGrid
    (by decide) (by decide) (by decide)
  exact ⟨h.1, h.2 (fun r c => by norm_num [zerosGrid])⟩

/-- C6 counterexample: resetting with the unknown pattern `"bogus"` does not
produce the `stripes` field: on a 1×1 grid with zero noise draws the
activator is 1 after the `"bogus"` reset but 0 after the `"stripes"`
reset. -/
theorem c6_unknown_pattern_counterexample :
    (reset sessW "bogus" pertZero zerosGrid zerosGrid).current
      ≠ (reset sessW "stripes" pertZero zerosGrid zerosGrid).current :=
  create_unknown_ne_stripes 1 1 "bogus" pertZero zerosGrid zerosGrid
    (by decide) (by decide) (by decide) (fun r c => by norm_num [zerosGrid])

/-- C10 (confirmed): `reset` replaces only the current field and the history
(with the single step-0 entry for the requested pattern); the session's
parameters and the compiled sampling program are left exactly as they were —
for an arbitrary pre-reset session (whose parameters need not be the
construction defaults), both are preserved verbatim. -/
theorem c10_reset_frame (s : Session) (pat : String)
    (pert : ℕ → ℕ × ℕ × ℕ) (nU nV : Grid) :
    (reset s pat pert nU nV).params = s.params ∧
      (reset s pat pert nU nV).progParams = s.progParams ∧
      (reset s pat pert nU nV).rows = s.rows ∧
      (reset s pat pert nU nV).cols = s.cols ∧
      (reset s pat pert nU nV).current
        = create_initial_chemicals s.rows s.cols pat pert nU nV ∧
      (reset s pat pert nU nV).history_u
        = [(create_initial_chemicals s.rows s.cols pat pert nU nV).1] ∧
      (reset s pat pert nU nV).history_v
        = [(create_initial_chemicals s.rows s.cols pat pert nU nV).2] :=
  ⟨rfl, rfl, rfl, rfl, rfl, rfl, rfl⟩

/-- C8 (confirmed): the parameter-update operation always succeeds, merges
exactly the recognized keys `F`, `k`, `Du`, `Dv` (each defaulting to its
previous value when absent), leaves `dt` and `noise_level` and the history
store and the current field unchanged, and ignores unrecognized keys
entirely. -/
theorem c8_update_params (data : List (String × ℚ)) (s : Session) :
    (update_params data s).history_u = s.history_u ∧
      (update_params data s).history_v = s.history_v ∧
      (update_params data s).current = s.current ∧
      (update_params data s).rows = s.rows ∧
      (update_params data s).cols = s.cols ∧
      (update_params data s).params
        = { s.params with
              F := (data.lookup "F").getD s.params.F,
              k := (data.lookup "k").getD s.params.k,
              Du := (data.lookup "Du").getD s.params.Du,
              Dv := (data.lookup "Dv").getD s.params.Dv } ∧
      (∀ (key : String) (v : ℚ), key ∉ (["F", "k", "Du", "Dv"] : List String) →
        update_params ((key, v) :: data) s = update_params data s) := by
  refine ⟨rfl, rfl, rfl, rfl, rfl, rfl, ?_⟩
  intro key v hk
  simp only [List.mem_cons, List.mem_singleton, not_or] at hk
  obtain ⟨hF, hk2, hDu, hDv, -⟩ := hk
  have bF : (("F" : String) == key) = false := beq_eq_false_iff_ne.mpr (Ne.symm hF)
  have bk : (("k" : String) == key) = false := beq_eq_false_iff_ne.mpr (Ne.symm hk2)
  have bDu : (("Du" : String) == key) = false := beq_eq_false_iff_ne.mpr (Ne.symm hDu)
  have bDv : (("Dv" : String) == key) = false := beq_eq_false_iff_ne.mpr (Ne.symm hDv)
  simp [update_params, List.lookup, bF, bk, bDu, bDv]

/-- C8 witness: on a concrete session, updating with `F` and an unknown key
applies `F`, and an update containing only an unknown key is the identity
update. -/
theorem c8_update_params_witness :
    (update_params [("F", 1/2), ("bogus", 3)] sessW).params.F = 1/2 ∧
      update_params [("bogus", 3)] sessW = update_params [] sessW := by
  constructor
  · have h := (c8_update_params [("F", 1/2), ("bogus", 3)] sessW).2.2.2.2.2.1
    rw [h]
    rfl
  · exact (c8_update_params [] sessW).2.2.2.2.2.2 "bogus" 3 (by decide)

/-- The per-sample state sequence produced by `sample_states`
(`simulation.py` lines 406-420, `SamplingSchedule(n_warmup=0,
n_samples=n, steps_per_sample=1)`): `n` successive sweeps of `thrmlStep`
starting from `st`, with `g i` supplying the Gaussian draws of sample `i`. -/
def sampleTraj (rows cols : ℕ) (p : Params) (g : ℕ → Grid × Grid) :
    ℕ → Grid × Grid → List (Grid × Grid)
  | 0, _ => []
  | n + 1, st =>
    let st1 := thrmlStep rows cols p st (g 0).1 (g 0).2
    st1 :: sampleTraj rows cols p (fun i => g (i + 1)) n st1

/-- `SimulationSession.simulate_steps` (`simulation.py` lines 404-429): run
the compiled program for `n` samples, append every sample to the history,
and set the current field to `states[..][-1]`.  For `n ≤ 0` the schedule
produces zero samples, so the final `states[0][-1]` indexes an empty array
and the call raises instead of returning (the preceding loop appended
nothing and the current field was not reassigned); this error outcome is
modelled as `none`. -/
def simulate_steps (s : Session) (n : ℤ) (g : ℕ → Grid × Grid) :
    Option Session :=
  if n ≤ 0 then none
  else
    let traj := sampleTraj s.rows s.cols s.progParams g n.toNat s.current
    some { s with
      history_u := s.history_u ++ traj.map Prod.fst,
      history_v := s.history_v ++ traj.map Prod.snd,
      current := traj.getLastD s.current }

/-- A session operation of the kinds interleaved by claim C3: a
`simulate_steps(n)` call (with its noise-draw oracle) or an
`interact(x, y, brush_size)` call. -/
inductive Op where
  | sim (n : ℤ) (g : ℕ → Grid × Grid)
  | paint (x y bs : ℤ)

/-- How many history entries an operation appends when it succeeds:
`n` for `simulate_steps(n)` (= `n.toNat` since a successful call has
`n ≥ 1`), and 1 for `interact`. -/
def opAdded : Op → ℕ
  | .sim n _ => n.toNat
  | .paint _ _ _ => 1

/-- Apply one operation to a session. -/
def applyOp (s : Session) : Op → Option Session
  | .sim n g => simulate_steps s n g
  | .paint x y bs => some (interact s x y bs)

/-- Run a list of operations left to right, stopping at the first error. -/
def runOps : Session → List Op → Option Session
  | s, [] => some s
  | s, op :: ops => (applyOp s op).bind fun s1 => runOps s1 ops

/-- Run a list of `simulate_steps` calls, each given as a step count and a
noise-draw oracle. -/
def runSimCalls : Session → List (ℤ × (ℕ → Grid × Grid)) → Option Session
  | s, [] => some s
  | s, c :: cs => (simulate_steps s c.1 c.2).bind fun s1 => runSimCalls s1 cs

/-- The session states reachable through the exposed operations:
construction, reset, parameter update, successful stepping, and paint. -/
inductive Reachable : Session → Prop where
  | init : ∀ (rows cols : ℕ) (pert : ℕ → ℕ × ℕ × ℕ) (nU nV : Grid),
      Reachable (initSession rows cols pert nU nV)
  | reset : ∀ (s : Session) (pat : String) (pert : ℕ → ℕ × ℕ × ℕ)
      (nU nV : Grid), Reachable s → Reachable (reset s pat pert nU nV)
  | update : ∀ (data : List (String × ℚ)) (s : Session),
      Reachable s → Reachable (update_params data s)
  | sim : ∀ (s : Session) (n : ℤ) (g : ℕ → Grid × Grid) (s' : Session),
      Reachable s → simulate_steps s n g = some s' → Reachable s'
  | paint : ∀ (s : Session) (x y bs : ℤ),
      Reachable s → Reachable (interact s x y bs)

/-- All values of a grid lie in `[0, 1]`. -/
def gridBounded (g : Grid) : Prop := ∀ r c, 0 ≤ g r c ∧ g r c ≤ 1

/-- Every grid owned by the session — every history entry of both species
and both current grids — has all its values in `[0, 1]`. -/
def sessionBounded (s : Session) : Prop :=
  (∀ g ∈ s.history_u, gridBounded g) ∧ (∀ g ∈ s.history_v, gridBounded g) ∧
    gridBounded s.current.1 ∧ gridBounded s.current.2

/-- A zero noise-draw oracle, used for concrete instances. -/
def oracleZero : ℕ → Grid × Grid := fun _ => (zerosGrid, zerosGrid)

theorem sampleTraj_length (rows cols : ℕ) (p : Params) :
    ∀ (n : ℕ) (g : ℕ → Grid × Grid) (st : Grid × Grid),
      (sampleTraj rows cols p g n st).length = n := by
  intro n
  induction n with
  | zero => intro g st; rfl
  | succ n ih => intro g st; simp [sampleTraj, ih]

theorem thrmlStep_bounded (rows cols : ℕ) (p : Params) (f : Grid × Grid)
    (nU nV : Grid) :
    gridBounded (thrmlStep rows cols p f nU nV).1 ∧
      gridBounded (thrmlStep rows cols p f nU nV).2 :=
  ⟨fun _ _ => ⟨clip01_nonneg _, clip01_le_one _⟩,
   fun _ _ => ⟨clip01_nonneg _, clip01_le_one _⟩⟩

theorem step_native_bounded (rows cols : ℕ) (p : Params) (U V : Grid) :
    gridBounded (step_native rows cols p U V).1 ∧
      gridBounded (step_native rows cols p U V).2 :=
  ⟨fun _ _ => ⟨clip01_nonneg _, clip01_le_one _⟩,
   fun _ _ => ⟨clip01_nonneg _, clip01_le_one _⟩⟩

theorem create_initial_chemicals_bounded (rows cols : ℕ) (pattern : String)
    (pert : ℕ → ℕ × ℕ × ℕ) (nU nV : Grid) :
    gridBounded (create_initial_chemicals rows cols pattern pert nU nV).1 ∧
      gridBounded (create_initial_chemicals rows cols pattern pert nU nV).2 :=
  ⟨fun _ _ => ⟨clip01_nonneg _, clip01_le_one _⟩,
   fun _ _ => ⟨clip01_nonneg _, clip01_le_one _⟩⟩

theorem sampleTraj_bounded (rows cols : ℕ) (p : Params) :
    ∀ (n : ℕ) (g : ℕ → Grid × Grid) (st : Grid × Grid),
      ∀ fp ∈ sampleTraj rows cols p g n st,
        gridBounded fp.1 ∧ gridBounded fp.2 := by
  intro n
  induction n with
  | zero => intro g st fp h; cases h
  | succ n ih =>
    intro g st fp h
    rcases List.mem_cons.mp h with h1 | h1
    · subst h1; exact thrmlStep_bounded rows cols p st (g 0).1 (g 0).2
    · exact ih (fun i => g (i + 1)) _ fp h1

theorem getLastD_eq_or_mem {α : Type} :
    ∀ (l : List α) (d : α), l.getLastD d = d ∨ l.getLastD d ∈ l := by
  intro l
  induction l with
  | nil => intro d; left; rfl
  | cons a l ih =>
    intro d
    right
    rw [List.getLastD_cons]
    rcases ih a with h | h
    · rw [h]; exact List.mem_cons_self a l
    · exact List.mem_cons_of_mem a h

theorem applyOp_effect (s : Session) (op : Op) (s1 : Session)
    (h : applyOp s op = some s1) :
    s1.history_u.length = s.history_u.length + opAdded op ∧
      s1.history_v.length = s.history_v.length + opAdded op ∧
      s.history_u <+: s1.history_u ∧ s.history_v <+: s1.history_v := by
  cases op with
  | sim n g =>
    simp only [applyOp, simulate_steps] at h
    by_cases hn : n ≤ 0
    · simp [hn] at h
    · simp only [if_neg hn, Option.some.injEq] at h
      subst h
      refine ⟨?_, ?_, ⟨_, rfl⟩, ⟨_, rfl⟩⟩ <;>
        simp [opAdded, sampleTraj_length]
  | paint x y bs =>
    simp only [applyOp, Option.some.injEq] at h
    subst h
    exact ⟨by simp [interact, opAdded], by simp [interact, opAdded],
      ⟨_, rfl⟩, ⟨_, rfl⟩⟩

theorem runOps_length (ops : List Op) :
    ∀ (s s' : Session), runOps s ops = some s' →
      s'.history_u.length = s.history_u.length + (ops.map opAdded).sum ∧
        s'.history_v.length = s.history_v.length + (ops.map opAdded).sum := by
  induction ops with
  | nil =>
    intro s s' h
    simp only [runOps, Option.some.injEq] at h
    subst h
    simp
  | cons op ops ih =>
    intro s s' h
    simp only [runOps] at h
    cases happ : applyOp s op with
    | none => rw [happ] at h; cases h
    | some s1 =>
      rw [happ] at h
      have h1 := applyOp_effect s op s1 happ
      have h2 := ih s1 s' h
      simp only [List.map_cons, List.sum_cons]
      omega

/-- C3 (confirmed): starting from any session whose history holds the single
step-0 entry (as `init` and `reset` produce), a successful run of any
interleaving of `simulate_steps` and `interact` operations leaves
`len(history) = 1 + (sum of the step counts) + (number of interacts)`, i.e.
`maxStep = len(history) - 1 = N + m`; moreover every single operation only
appends to both history lists (the pre-state history is a prefix of the
post-state history), and `init`/`reset` are the only operations that replace
the store (with a fresh single-entry one). -/
theorem c3_history_length (s : Session) (ops : List Op) (s' : Session)
    (h0 : s.history_u.length = 1 ∧ s.history_v.length = 1)
    (hrun : runOps s ops = some s') :
    (s'.history_u.length = 1 + (ops.map opAdded).sum ∧
        s'.history_v.length = 1 + (ops.map opAdded).sum) ∧
      (∀ (t : Session) (op : Op) (t' : Session), applyOp t op = some t' →
        t.history_u <+: t'.history_u ∧ t.history_v <+: t'.history_v) ∧
      (∀ (rows cols : ℕ) (pert : ℕ → ℕ × ℕ × ℕ) (nU nV : Grid),
        (initSession rows cols pert nU nV).history_u.length = 1 ∧
          (initSession rows cols pert nU nV).history_v.length = 1) ∧
      (∀ (t : Session) (pat : String) (pert : ℕ → ℕ × ℕ × ℕ) (nU nV : Grid),
        (reset t pat pert nU nV).history_u.length = 1 ∧
          (reset t pat pert nU nV).history_v.length = 1) := by
  refine ⟨?_, ?_, ?_, ?_⟩
  · have h := runOps_length ops s s' hrun
    omega
  · intro t op t' h
    exact ⟨(applyOp_effect t op t' h).2.2.1, (applyOp_effect t op t' h).2.2.2⟩
  · intro rows cols pert nU nV; exact ⟨rfl, rfl⟩
  · intro t pat pert nU nV; exact ⟨rfl, rfl⟩

/-- C3 witness: one `interact` after construction of a concrete 1×1 session
grows the history from 1 to 2 entries. -/
theorem c3_history_length_witness :
    (interact sessW 0 0 0).history_v.length = 2 := by
  have h := (c3_history_length sessW [Op.paint 0 0 0] (interact sessW 0 0 0)
    ⟨rfl, rfl⟩ rfl).1.2
  simpa [opAdded] using h

theorem reachable_bounded (s : Session) (h : Reachable s) : sessionBounded s := by
  induction h with
  | init rows cols pert nU nV =>
    refine ⟨?_, ?_, ?_, ?_⟩
    · intro g hg
      rw [List.mem_singleton.mp hg]
      exact (create_initial_chemicals_bounded rows cols "stripes" pert nU nV).1
    · intro g hg
      rw [List.mem_singleton.mp hg]
      exact (create_initial_chemicals_bounded rows cols "stripes" pert nU nV).2
    · exact (create_initial_chemicals_bounded rows cols "stripes" pert nU nV).1
    · exact (create_initial_chemicals_bounded rows cols "stripes" pert nU nV).2
  | reset s pat pert nU nV _ _ =>
    refine ⟨?_, ?_, ?_, ?_⟩
    · intro g hg
      rw [List.mem_singleton.mp hg]
      exact (create_initial_chemicals_bounded s.rows s.cols pat pert nU nV).1
    · intro g hg
      rw [List.mem_singleton.mp hg]
      exact (create_initial_chemicals_bounded s.rows s.cols pat pert nU nV).2
    · exact (create_initial_chemicals_bounded s.rows s.cols pat pert nU nV).1
    · exact (create_initial_chemicals_bounded s.rows s.cols pat pert nU nV).2
  | update data s _ ih => exact ih
  | sim s n g s' _ heq ih =>
    simp only [simulate_steps] at heq
    by_cases hn : n ≤ 0
    · simp [hn] at heq
    · simp only [if_neg hn, Option.some.injEq] at heq
      subst heq
      obtain ⟨ihu, ihv, ihc1, ihc2⟩ := ih
      refine ⟨?_, ?_, ?_, ?_⟩
      · intro g1 hg
        rcases List.mem_append.mp hg with h1 | h1
        · exact ihu g1 h1
        · obtain ⟨fp, hfp, rfl⟩ := List.mem_map.mp h1
          exact (sampleTraj_bounded s.rows s.cols s.progParams n.toNat g
            s.current fp hfp).1
      · intro g1 hg
        rcases List.mem_append.mp hg with h1 | h1
        · exact ihv g1 h1
        · obtain ⟨fp, hfp, rfl⟩ := List.mem_map.mp h1
          exact (sampleTraj_bounded s.rows s.cols s.progParams n.toNat g
            s.current fp hfp).2
      · rcases getLastD_eq_or_mem
          (sampleTraj s.rows s.cols s.progParams g n.toNat s.current)
          s.current with h1 | h1
        · rw [h1]; exact ihc1
        · exact (sampleTraj_bounded s.rows s.cols s.progParams n.toNat g
            s.current _ h1).1
      · rcases getLastD_eq_or_mem
          (sampleTraj s.rows s.cols s.progParams g n.toNat s.current)
          s.current with h1 | h1
        · rw [h1]; exact ihc2
        · exact (sampleTraj_bounded s.rows s.cols s.progParams n.toNat g
            s.current _ h1).2
  | paint s x y bs _ ih =>
    obtain ⟨ihu, ihv, ihc1, ihc2⟩ := ih
    have hu : gridBounded (fun r c =>
        if paintHit s.rows s.cols x y bs r c then 0 else s.current.1 r c) := by
      intro r c
      by_cases hp : paintHit s.rows s.cols x y bs r c
      · simp [hp]
      · simpa [hp] using ihc1 r c
    have hv : gridBounded (fun r c =>
        if paintHit s.rows s.cols x y bs r c then 1 else s.current.2 r c) := by
      intro r c
      by_cases hp : paintHit s.rows s.cols x y bs r c
      · simp [hp]
      · simpa [hp] using ihc2 r c
    refine ⟨?_, ?_, hu, hv⟩
    · intro g hg
      rcases List.mem_append.mp hg with h1 | h1
      · exact ihu g h1
      · rw [List.mem_singleton.mp h1]; exact hu
    · intro g hg
      rcases List.mem_append.mp hg with h1 | h1
      · exact ihv g h1
      · rw [List.mem_singleton.mp h1]; exact hv

/-- C2 (confirmed, over the exact-arithmetic model): both stepping paths
clamp every produced cell into `[0, 1]` for every input field and every
parameter value, and consequently every grid owned by any reachable session
(every history entry of either species and both current grids) has all its
values in `[0, 1]`.  In the rational-arithmetic embedding every value is
finite by construction; non-finite floats do not arise. -/
theorem c2_boundedness :
    (∀ (rows cols : ℕ) (p : Params) (f : Grid × Grid) (nU nV : Grid),
        gridBounded (thrmlStep rows cols p f nU nV).1 ∧
          gridBounded (thrmlStep rows cols p f nU nV).2) ∧
      (∀ (rows cols : ℕ) (p : Params) (U V : Grid),
        gridBounded (step_native rows cols p U V).1 ∧
          gridBounded (step_native rows cols p U V).2) ∧
      (∀ s : Session, Reachable s → sessionBounded s) :=
  ⟨thrmlStep_bounded, step_native_bounded, reachable_bounded⟩

/-- C2 witness: the reachable-state bound applied to a concrete freshly
constructed 1×1 session, at cell (0,0) of the current activator grid. -/
theorem c2_boundedness_witness :
    0 ≤ sessW.current.1 0 0 ∧ sessW.current.1 0 0 ≤ 1 :=
  (c2_boundedness.2.2 sessW
    (Reachable.init 1 1 pertZero zerosGrid zerosGrid)).2.2.1 0 0

theorem thrmlStep_noise_indep (rows cols : ℕ) (p : Params) (f : Grid × Grid)
    (nU nV nU' nV' : Grid) (h : p.noise_level = 0) :
    thrmlStep rows cols p f nU nV = thrmlStep rows cols p f nU' nV' := by
  refine Prod.ext ?_ ?_ <;> funext r c <;> simp [thrmlStep, h]

theorem sampleTraj_noise_indep (rows cols : ℕ) (p : Params)
    (h : p.noise_level = 0) :
    ∀ (n : ℕ) (g g' : ℕ → Grid × Grid) (st : Grid × Grid),
      sampleTraj rows cols p g n st = sampleTraj rows cols p g' n st := by
  intro n
  induction n with
  | zero => intro g g' st; rfl
  | succ n ih =>
    intro g g' st
    simp only [sampleTraj]
    rw [thrmlStep_noise_indep rows cols p st (g 0).1 (g 0).2 (g' 0).1 (g' 0).2 h,
      ih (fun i => g (i + 1)) (fun i => g' (i + 1))]

theorem simulate_steps_noise_indep (s : Session) (n : ℤ)
    (g g' : ℕ → Grid × Grid) (h : s.progParams.noise_level = 0) :
    simulate_steps s n g = simulate_steps s n g' := by
  unfold simulate_steps
  by_cases hn : n ≤ 0
  · simp [hn]
  · simp only [if_neg hn]
    rw [sampleTraj_noise_indep s.rows s.cols s.progParams h n.toNat g g' s.current]

theorem simulate_steps_progParams (s : Session) (n : ℤ)
    (g : ℕ → Grid × Grid) (s' : Session) (h : simulate_steps s n g = some s') :
    s'.progParams = s.progParams := by
  simp only [simulate_steps] at h
  by_cases hn : n ≤ 0
  · simp [hn] at h
  · simp only [if_neg hn, Option.some.injEq] at h
    subst h
    rfl

/-- C4 (confirmed): with the noise amplitude set to 0 the stepping pipeline
is independent of the random draws, so two identically initialized sessions
(modelled as one session value, since identical `init` inputs produce equal
states) stepped through identical sequences of `simulate_steps` calls —
even with entirely different random streams — produce the same resulting
session, hence bit-for-bit identical history entries at every step. -/
theorem c4_determinism (s : Session)
    (calls1 calls2 : List (ℤ × (ℕ → Grid × Grid)))
    (hnl : s.progParams.noise_level = 0)
    (hsame : calls1.map Prod.fst = calls2.map Prod.fst) :
    runSimCalls s calls1 = runSimCalls s calls2 := by
  induction calls1 generalizing s calls2 with
  | nil =>
    cases calls2 with
    | nil => rfl
    | cons d ds => simp at hsame
  | cons c cs ih =>
    cases calls2 with
    | nil => simp at hsame
    | cons d ds =>
      simp only [List.map_cons, List.cons.injEq] at hsame
      obtain ⟨h1, h2⟩ := hsame
      simp only [runSimCalls]
      rw [← h1,
        simulate_steps_noise_indep s c.1 c.2 d.2 hnl]
      cases hs : simulate_steps s c.1 d.2 with
      | none => rfl
      | some s1 =>
        have hp : s1.progParams.noise_level = 0 := by
          rw [simulate_steps_progParams s c.1 d.2 s1 hs]; exact hnl
        exact ih s1 ds hp h2

/-- A session with the construction defaults except zero noise amplitude. -/
def sessNoNoise : Session := { sessW with params := paramsNoNoise, progParams := paramsNoNoise }

/-- C4 witness: on a concrete noise-free session, one 1-step call with an
all-ones draw stream equals one 1-step call with an all-zeros draw stream. -/
theorem c4_determinism_witness :
    runSimCalls sessNoNoise [(1, fun _ => (onesGrid, onesGrid))]
      = runSimCalls sessNoNoise [(1, oracleZero)] :=
  c4_determinism sessNoNoise _ _ rfl rfl

/-- C7 (amended): for every `n ≤ 0`, `simulate_steps(n)` appends nothing to
the history and changes no session state, but it does not terminate
normally: the zero-sample schedule makes the trailing `states[0][-1]` index
an empty array, so the call raises (modelled as `none`) instead of being a
clean no-op. -/
theorem c7_nonpositive_steps_amended (s : Session) (n : ℤ)
    (g : ℕ → Grid × Grid) (h : n ≤ 0) : simulate_steps s n g = none := by
  simp [simulate_steps, h]

/-- C7 witness: the amended statement at `n = 0` on a concrete session. -/
theorem c7_nonpositive_steps_amended_witness :
    simulate_steps sessW 0 oracleZero = none :=
  c7_nonpositive_steps_amended sessW 0 oracleZero (by decide)

/-- C7 counterexample: the claim as stated is false: `simulate_steps(0)`
does not terminate without error leaving the session unchanged — it fails
(`none`), so its result is not the unchanged session. -/
theorem c7_nonpositive_steps_counterexample :
    simulate_steps sessW 0 oracleZero ≠ some sessW := by
  simp [simulate_steps]

/-- The index sequence of Python `range(start, stop, step)` for a nonzero
step: ascending while `< stop` for positive step, descending while `> stop`
for negative step (each list written by its closed-form element count). -/
def pyRangeList (start stop step : ℤ) : List ℤ :=
  if 0 < step then
    (List.range (((stop - start).toNat + (step.toNat - 1)) / step.toNat)).map
      (fun j : ℕ => start + step * (j : ℤ))
  else if step < 0 then
    (List.range (((start - stop).toNat + ((-step).toNat - 1)) / (-step).toNat)).map
      (fun j : ℕ => start + step * (j : ℤ))
  else []

/-- Python list indexing `l[i]`: a negative index counts from the end, and
an index out of range raises (`none`). -/
def pyGet {α : Type} (l : List α) (i : ℤ) : Option α :=
  if 0 ≤ i then l.get? i.toNat
  else if 0 ≤ (l.length : ℤ) + i then l.get? ((l.length : ℤ) + i).toNat
  else none

/-- Run an effectful lookup over a list, collecting the results in order and
propagating the first error (the model of a Python loop whose body may
raise). -/
def optionTraverse {α β : Type} (f : α → Option β) : List α → Option (List β)
  | [] => some []
  | a :: l => (f a).bind fun b => (optionTraverse f l).map fun bs => b :: bs

/-- `SimulationSession.get_history_range` (`simulation.py` lines 448-460)
applied to a history list: `end` defaults to `len(history)`; the frames are
`{step: i, v_grid: history[i]}` for `i` in
`range(start, min(end, len(history)), stride)`.  Python's `range` raises
`ValueError` on a zero stride, and an out-of-range `history[i]` raises
`IndexError`; both error outcomes are modelled as `none`. -/
def get_history_range {α : Type} (hist : List α) (start : ℤ) (stop? : Option ℤ)
    (stride : ℤ) : Option (List (ℤ × α)) :=
  if stride = 0 then none
  else
    optionTraverse (fun i => (pyGet hist i).map (fun v => (i, v)))
      (pyRangeList start (min (stop?.getD (hist.length : ℤ)) (hist.length : ℤ))
        stride)

theorem mem_pyRangeList_pos (start stop step i : ℤ) (hstep : 0 < step)
    (hi : i ∈ pyRangeList start stop step) : start ≤ i ∧ i < stop := by
  unfold pyRangeList at hi
  rw [if_pos hstep] at hi
  obtain ⟨j, hjmem, rfl⟩ := List.mem_map.mp hi
  have hj := List.mem_range.mp hjmem
  have hs0 : 0 < step.toNat := by omega
  have h5 := (Nat.le_div_iff_mul_le hs0).mp hj
  rw [Nat.succ_mul] at h5
  have h6 : j * step.toNat < (stop - start).toNat := by omega
  have h7 : ((j * step.toNat : ℕ) : ℤ) < (((stop - start).toNat : ℕ) : ℤ) := by
    exact_mod_cast h6
  push_cast at h7
  rw [Int.toNat_of_nonneg hstep.le] at h7
  have hjpos : (0 : ℤ) ≤ (j : ℤ) * step :=
    mul_nonneg (Int.natCast_nonneg j) hstep.le
  have h10 : (j : ℤ) * step < stop - start := by
    rcases le_or_lt (stop - start) 0 with hc | hc
    · rw [Int.toNat_of_nonpos hc] at h7
      norm_num at h7
      linarith
    · rwa [Int.toNat_of_nonneg hc.le] at h7
  have hcomm : step * (j : ℤ) = (j : ℤ) * step := mul_comm _ _
  constructor
  · linarith
  · linarith

theorem pyRangeList_nil_of_le (start stop step : ℤ) (hstep : 0 < step)
    (h : stop ≤ start) : pyRangeList start stop step = [] := by
  simp only [pyRangeList, if_pos hstep]
  have hs0 : 0 < step.toNat := by omega
  have h1 : (stop - start).toNat = 0 := by omega
  rw [h1]
  have h2 : (0 + (step.toNat - 1)) / step.toNat = 0 := Nat.div_eq_of_lt (by omega)
  rw [h2]
  rfl

theorem pyGet_eq_getD {α : Type} [Inhabited α] (l : List α) (i : ℤ)
    (h0 : 0 ≤ i) (hl : i < (l.length : ℤ)) :
    pyGet l i = some (l.getD i.toNat default) := by
  have hlt : i.toNat < l.length := by omega
  unfold pyGet
  rw [if_pos h0]
  cases hq : l.get? i.toNat with
  | none => rw [List.get?_eq_none] at hq; omega
  | some x => rw [List.getD_eq_get?, hq]; rfl

theorem traverse_pyGet {α : Type} [Inhabited α] (hist : List α) :
    ∀ l : List ℤ, (∀ i ∈ l, 0 ≤ i ∧ i < (hist.length : ℤ)) →
      optionTraverse (fun i => (pyGet hist i).map (fun v => (i, v))) l
        = some (l.map (fun i => (i, hist.getD i.toNat default))) := by
  intro l
  induction l with
  | nil => intro _; rfl
  | cons a l ih =>
    intro hb
    have ha := hb a (List.mem_cons_self a l)
    have hrest := ih (fun i hi => hb i (List.mem_cons_of_mem a hi))
    simp [optionTraverse, pyGet_eq_getD hist a ha.1 ha.2, hrest]

/-- C5 (amended): for `stride ≥ 1` and `start ≥ 0`, `get_history_range`
returns exactly the frames at steps `start, start+stride, …` below
`min(end, L)` (with an omitted `end` behaving as `L`), and in particular an
empty list when `end ≤ start`; but `stride = 0` raises (Python `range`
rejects a zero step) rather than yielding an empty sequence, and a negative
stride follows Python `range` semantics (a descending index sequence) —
so the claim's "stride ≤ 0 yields an empty sequence" fails. -/
theorem c5_get_history_range_amended {α : Type} [Inhabited α] (hist : List α)
    (start e stride : ℤ) (hstr : 1 ≤ stride) (hstart : 0 ≤ start) :
    (get_history_range hist start (some e) stride
        = some ((pyRangeList start (min e (hist.length : ℤ)) stride).map
            (fun i => (i, hist.getD i.toNat default)))) ∧
      (get_history_range hist start none stride
        = get_history_range hist start (some (hist.length : ℤ)) stride) ∧
      (e ≤ start → get_history_range hist start (some e) stride = some []) ∧
      (get_history_range hist start (some e) 0 = none) := by
  have hstr0 : ¬stride = 0 := by omega
  have hmain : get_history_range hist start (some e) stride
      = some ((pyRangeList start (min e (hist.length : ℤ)) stride).map
          (fun i => (i, hist.getD i.toNat default))) := by
    unfold get_history_range
    rw [if_neg hstr0]
    simp only [Option.getD_some]
    refine traverse_pyGet hist _ ?_
    intro i hi
    have h := mem_pyRangeList_pos start (min e (hist.length : ℤ)) stride i
      (by omega) hi
    exact ⟨by omega, by omega⟩
  refine ⟨hmain, rfl, ?_, ?_⟩
  · intro he
    rw [hmain, pyRangeList_nil_of_le start (min e (hist.length : ℤ)) stride
      (by omega) (by omega)]
    rfl
  · unfold get_history_range
    rw [if_pos rfl]

/-- A concrete history list of length 10. -/
def histW : List Grid := List.replicate 10 zerosGrid

/-- C5 witness: on a history of length 10, `start=2, end=5, stride=2`
returns exactly the frames at steps 2 and 4. -/
theorem c5_get_history_range_amended_witness :
    get_history_range histW 2 (some 5) 2
      = some [(2, zerosGrid), (4, zerosGrid)] := by
  have h := (c5_get_history_range_amended histW 2 5 2 (by decide) (by decide)).1
  rw [h]
  rfl

/-- C5 counterexample: on the concrete session's length-1 history,
`stride = 0` (with `start = 0` and `end` omitted) errors out (`none`)
instead of yielding the empty sequence the claim promises. -/
theorem c5_get_history_range_counterexample :
    get_history_range sessW.history_v 0 none 0 ≠ some [] := by
  simp [get_history_range]
